import Mathlib

/-!
Verification of the asset-caching and dispatch core of the imggen repository
(src/imggen/core.py), as a shallow embedding.

Python objects that are mutated in place (PIL images) live on an explicit
heap and are denoted by references, so that object identity, copying and
in-place mutation are observable.  Python dicts are association lists with
first-match lookup and in-place replacement on store (Python dict keys are
unique, which the model preserves).  Disk access and the opaque PIL
primitives (decoding, font parsing, text measurement) are an explicit
environment of abstract functions.  Lock usage is modelled separately as
the sequence of elementary cache operations each method performs, annotated
with whether the mutual-exclusion lock is held.
-/

namespace ImgGen

/-- The error taxonomy of the spec, plus the Python KeyError raised by
dict deletion and an unreachable fault for dangling references. -/
inductive GenError where
  | notFound
  | decodeError
  | invalidInput
  | unsupportedOutput
  | keyError
  | heapFault
deriving DecidableEq, Repr

/-- Raw byte strings (file contents), abstracted as lists of byte values. -/
abbrev Bytes := List Nat

/-- Abstract contents of a decoded image.  Constructors record the editing
history symbolically; the PIL pixel operations themselves are opaque. -/
inductive ImageVal where
  | base (name : String)
  | resized (v : ImageVal) (dims : Nat × Nat)
  | pasted (base overlay : ImageVal) (coords : Int × Int)
  | texted (v : ImageVal) (xy : ℚ × Int) (text : String) (fill : Nat × Nat × Nat)
      (fontname : String) (size : Nat)
deriving DecidableEq, Repr

/-- Python dict lookup: the value stored under a key, if present. -/
def dictGet {α : Type} : List (String × α) → String → Option α
  | [], _ => none
  | (k', v) :: rest, k => if k' = k then some v else dictGet rest k

/-- Python dict store: replaces the binding in place when the key is
present, otherwise appends a new binding. -/
def dictSet {α : Type} : List (String × α) → String → α → List (String × α)
  | [], k, v => [(k, v)]
  | (k', v') :: rest, k, v =>
      if k' = k then (k, v) :: rest else (k', v') :: dictSet rest k v

/-- Python dict deletion: removes the binding of the key (the first match;
real dict keys are unique). -/
def dictDel {α : Type} : List (String × α) → String → List (String × α)
  | [], _ => []
  | (k', v') :: rest, k => if k' = k then rest else (k', v') :: dictDel rest k

/-- The heap of mutable image objects; a reference is an index. -/
structure Heap where
  objs : List ImageVal
deriving DecidableEq, Repr

def Heap.size (h : Heap) : Nat := h.objs.length

def Heap.get (h : Heap) (r : Nat) : Option ImageVal := h.objs[r]?

/-- Allocate a new image object (Image.open, .copy(), .resize() all
allocate); returns the fresh reference and the extended heap. -/
def Heap.alloc (h : Heap) (v : ImageVal) : Nat × Heap :=
  (h.objs.length, ⟨h.objs ++ [v]⟩)

/-- Mutate the object behind a reference in place (paste / draw.text). -/
def Heap.set (h : Heap) (r : Nat) (v : ImageVal) : Heap :=
  ⟨h.objs.set r v⟩

/-- The opaque externals: the filesystem and the PIL primitives. -/
structure DiskEnv where
  /-- Contents of the file at a path, if the file exists. -/
  files : String → Option Bytes
  /-- Image.open: decoded image for parsable bytes, failure otherwise. -/
  decodeImage : Bytes → Option ImageVal
  /-- Whether ImageFont.truetype accepts the bytes as a font. -/
  parseFont : Bytes → Bool
  /-- font.getlength as a function of (font bytes, point size, text line). -/
  getlength : Bytes → Nat → String → ℚ

/-- ImageCache.__getitem__ (src/imggen/core.py lines 58-68).  On a hit it
returns a copy of the cached image; on a miss it opens the file, stores the
live decoded object in the cache dict (through the locked __setitem__), and
returns a copy of it.  Returns the updated cache dict, the updated heap,
and the result. -/
def ImageCache.getitem (env : DiskEnv) (d : List (String × Nat)) (h : Heap)
    (key : String) : List (String × Nat) × Heap × Except GenError Nat :=
  match dictGet d key with
  | some rc =>
      match h.get rc with
      | some v =>
          let (rcopy, h') := h.alloc v
          (d, h', .ok rcopy)
      | none => (d, h, .error .heapFault)
  | none =>
      match env.files key with
      | none => (d, h, .error .notFound)
      | some b =>
          match env.decodeImage b with
          | none => (d, h, .error .decodeError)
          | some v =>
              let (rimg, h1) := h.alloc v
              let d' := dictSet d key rimg
              let (rcopy, h2) := h1.alloc v
              (d', h2, .ok rcopy)

/-- A sized font object as returned by ImageFont.truetype.  The oid field
is an allocation stamp distinguishing the separately constructed Python
objects. -/
structure FontObj where
  data : Bytes
  size : Nat
  oid : Nat
deriving DecidableEq, Repr

deriving instance DecidableEq for Except

/-- Outcome of FontCache.__getitem__: the cache dict afterwards, the next
allocation stamp, how many disk reads the call performed, and the result. -/
structure FontGetResult where
  cacheDict : List (String × Bytes)
  nextOid : Nat
  diskReads : Nat
  result : Except GenError FontObj
deriving DecidableEq, Repr

/-- FontCache.__getitem__ (src/imggen/core.py lines 81-96).  Only raw font
bytes are cached, keyed by filename alone; a fresh sized font object is
constructed from the bytes on every call.  On a miss the bytes are read
from disk once and stored (directly into cache_dict, not through the
locked __setitem__). -/
def FontCache.getitem (env : DiskEnv) (d : List (String × Bytes)) (nextOid : Nat)
    (key : String × Nat) : FontGetResult :=
  let (filename, size) := key
  match dictGet d filename with
  | some b =>
      if env.parseFont b then ⟨d, nextOid + 1, 0, .ok ⟨b, size, nextOid⟩⟩
      else ⟨d, nextOid, 0, .error .decodeError⟩
  | none =>
      match env.files filename with
      | none => ⟨d, nextOid, 0, .error .notFound⟩
      | some fontbytes =>
          if env.parseFont fontbytes then
            ⟨dictSet d filename fontbytes, nextOid + 1, 1, .ok ⟨fontbytes, size, nextOid⟩⟩
          else ⟨d, nextOid, 1, .error .decodeError⟩

/-- Elementary steps a cache method performs, for reasoning about which of
them happen while the mutual-exclusion lock is held. -/
inductive CacheOp where
  | acquire
  | release
  | checkKey
  | readDict
  | loadDisk
  | storeKey
  | delKey
deriving DecidableEq, Repr

/-- Step sequence of ImageCache.__getitem__ (core.py lines 58-68): the
with-block covers the presence check and the hit-path value read; on a miss
the disk load runs unlocked and the store goes through the locked
AssetCache.__setitem__. -/
def ImageCache.getitemOps (hit : Bool) : List CacheOp :=
  if hit then [.acquire, .checkKey, .readDict, .release]
  else [.acquire, .checkKey, .release, .loadDisk, .acquire, .storeKey, .release]

/-- Step sequence of FontCache.__getitem__ (core.py lines 81-96): the
with-block covers the presence check and the hit-path value read; on a miss
the disk load runs unlocked and the store writes cache_dict directly,
without re-acquiring the lock. -/
def FontCache.getitemOps (hit : Bool) : List CacheOp :=
  if hit then [.acquire, .checkKey, .readDict, .release]
  else [.acquire, .checkKey, .release, .loadDisk, .storeKey]

/-- Step sequence of AssetCache.__setitem__ (core.py lines 33-35). -/
def AssetCache.setitemOps : List CacheOp := [.acquire, .storeKey, .release]

/-- Step sequence of AssetCache.__delitem__ (core.py lines 37-39). -/
def AssetCache.delitemOps : List CacheOp := [.acquire, .delKey, .release]

/-- Step sequence of AssetCache.__iter__ (core.py lines 41-42). -/
def AssetCache.iterOps : List CacheOp := [.readDict]

/-- Step sequence of AssetCache.__len__ (core.py lines 44-45). -/
def AssetCache.lenOps : List CacheOp := [.readDict]

/-- Annotates every step with whether the lock is held when it executes. -/
def lockTrace : List CacheOp → Bool → List (CacheOp × Bool)
  | [], _ => []
  | .acquire :: rest, _ => (.acquire, true) :: lockTrace rest true
  | .release :: rest, _ => (.release, false) :: lockTrace rest false
  | op :: rest, held => (op, held) :: lockTrace rest held

/-- Every occurrence of the given step executes while the lock is held. -/
def opsSynchronized (ops : List CacheOp) (target : CacheOp) : Bool :=
  (lockTrace ops false).all fun p => p.1 ≠ target || p.2

/-- No occurrence of the given step executes while the lock is held. -/
def opsUnlocked (ops : List CacheOp) (target : CacheOp) : Bool :=
  (lockTrace ops false).all fun p => p.1 ≠ target || !p.2

/-- State effect of AssetCache.__setitem__ on the underlying mapping. -/
def AssetCache.setitem {α : Type} (d : List (String × α)) (k : String) (v : α) :
    List (String × α) :=
  dictSet d k v

/-- State effect of AssetCache.__delitem__ on the underlying mapping
(del raises KeyError when the key is absent). -/
def AssetCache.delitem {α : Type} (d : List (String × α)) (k : String) :
    Except GenError (List (String × α)) :=
  match dictGet d k with
  | some _ => .ok (dictDel d k)
  | none => .error .keyError

/-- AssetCache.__iter__: iteration over the keys of the underlying mapping. -/
def AssetCache.iterKeys {α : Type} (d : List (String × α)) : List String :=
  d.map Prod.fst

/-- AssetCache.__len__: the size of the underlying mapping. -/
def AssetCache.size {α : Type} (d : List (String × α)) : Nat :=
  d.length

/-- The whitespace characters of Python str.strip (the ASCII ones). -/
def isPySpace (c : Char) : Bool :=
  c = ' ' || c = '\t' || c = '\n' || c = '\r' || c = '\x0b' || c = '\x0c'

/-- Python text.strip(): drops leading and trailing whitespace. -/
def pyStrip (s : String) : String :=
  String.mk (((s.data.dropWhile isPySpace).reverse.dropWhile isPySpace).reverse)

/-- Python text.split on a newline character, over the character list:
split("\n") yields one (possibly empty) piece per newline-separated run. -/
def splitNl : List Char → List (List Char)
  | [] => [[]]
  | c :: rest =>
      let r := splitNl rest
      if c = '\n' then [] :: r
      else
        match r with
        | [] => [[c]]
        | l :: ls => (c :: l) :: ls

/-- Python text.split("\n") on strings. -/
def pySplit (s : String) : List String :=
  (splitNl s.data).map String.mk

/-- Python max over a list of measured line lengths (the list coming from
split is never empty). -/
def listMaxQ : List ℚ → ℚ
  | [] => 0
  | x :: xs => xs.foldl max x

/-- The draw-origin computation of writetext (core.py lines 252-257):
strip the text, split it on newlines, take the maximum measured line
length, set the block height to size times the line count, and take
xy = (center[0] - length // 2, center[1] - height // 2), with Python
floor division.  The x component is a float, the y component an int. -/
def writetextXY (metric : String → ℚ) (size : Nat) (center : Int × Int)
    (text : String) : ℚ × Int :=
  let t := pyStrip text
  let lines := pySplit t
  let length := listMaxQ (lines.map metric)
  let height : Nat := size * lines.length
  ((center.1 : ℚ) - ((⌊length / 2⌋ : ℤ) : ℚ), center.2 - ((height / 2 : Nat) : ℤ))

/-- The draw origin as the spec sentence words it, with exact halving:
(center.x - width / 2, center.y - height / 2). -/
def writetextXYSpec (metric : String → ℚ) (size : Nat) (center : Int × Int)
    (text : String) : ℚ × ℚ :=
  let t := pyStrip text
  let lines := pySplit t
  let length := listMaxQ (lines.map metric)
  let height : Nat := size * lines.length
  ((center.1 : ℚ) - length / 2, (center.2 : ℚ) - (height : ℚ) / 2)

/-- The handle loop.run_in_executor returns: completes, when awaited, with
whatever the submitted callable produces. -/
structure Future (ρ : Type) where
  task : Unit → ρ

def Future.await {ρ : Type} (f : Future ρ) : ρ := f.task ()

/-- functools.partial: the operation bound with its call arguments. -/
def functoolsPartial {α ρ : Type} (f : α → ρ) (a : α) : Unit → ρ :=
  fun _ => f a

/-- loop.run_in_executor: submits the callable, returns the handle. -/
def runInExecutor {ρ : Type} (task : Unit → ρ) : Future ρ := ⟨task⟩

/-- What an invocation of a bound operation returns: either the outcome of
the operation directly, or an awaitable handle. -/
inductive DispatchResult (ρ : Type) where
  | direct (r : ρ)
  | awaitable (f : Future ρ)

/-- Generator.__call__ (core.py lines 109-114): in async mode, submit the
partially applied operation to the executor via the loop and return the
handle; otherwise call the operation directly.  The outcome type ρ of the
operation is typically an Except carrying its result or failure. -/
def Generator.call {α ρ : Type} (asyncMode : Bool) (func : α → ρ) (args : α) :
    DispatchResult ρ :=
  if asyncMode then .awaitable (runInExecutor (functoolsPartial func args))
  else .direct (func args)

/-- The representations a caller may pass as the overlay or target image
argument: a decoded PIL image, a raw byte string, an in-memory byte buffer,
a filesystem path string, or any other Python value. -/
inductive PyImageArg where
  | pilImage (r : Nat)
  | rawBytes (b : Bytes)
  | byteBuffer (b : Bytes)
  | pathStr (p : String)
  | other (tag : String)
deriving DecidableEq, Repr

def PyImageArg.isOther : PyImageArg → Bool
  | .other _ => true
  | _ => false

/-- BaseImageGenerator.convert_to_image (core.py lines 157-167): a path is
opened from disk, raw bytes are wrapped in a buffer and the buffer decoded,
a decoded image passes through as the same object, and anything else
raises TypeError (the InvalidInput error). -/
def convert_to_image (env : DiskEnv) (h : Heap) (image : PyImageArg) :
    Heap × Except GenError Nat :=
  match image with
  | .pilImage r => (h, .ok r)
  | .pathStr p =>
      match env.files p with
      | none => (h, .error .notFound)
      | some b =>
          match env.decodeImage b with
          | none => (h, .error .decodeError)
          | some v =>
              let (r, h') := h.alloc v
              (h', .ok r)
  | .rawBytes b =>
      match env.decodeImage b with
      | none => (h, .error .decodeError)
      | some v =>
          let (r, h') := h.alloc v
          (h', .ok r)
  | .byteBuffer b =>
      match env.decodeImage b with
      | none => (h, .error .decodeError)
      | some v =>
          let (r, h') := h.alloc v
          (h', .ok r)
  | .other _ => (h, .error .invalidInput)

/-- An in-memory encoded result, as produced by image_to_bytesio: the
image contents at save time paired with the requested format. -/
structure EncodedImage where
  val : ImageVal
  format : String
deriving DecidableEq, Repr

/-- BaseImageGenerator.image_to_bytesio (core.py lines 169-173). -/
def image_to_bytesBuf (v : ImageVal) (format : String) : EncodedImage :=
  ⟨v, format⟩

/-- The mutable state a BaseImageGenerator owns: the two cache dicts, the
object heap and the allocation stamp counter. -/
structure GenState where
  imageDict : List (String × Nat)
  fontDict : List (String × Bytes)
  heap : Heap
  nextOid : Nat
deriving DecidableEq, Repr

/-- BaseImageGenerator.paste (core.py lines 175-191): fetch the base from
the image cache, normalize the overlay, resize it if asked (to a new
object), paste the overlay onto the base in place, and return the base
encoded in the requested format. -/
def paste (env : DiskEnv) (s : GenState) (basename : String) (image : PyImageArg)
    (coords : Int × Int) (format : String) (resize : Option (Nat × Nat)) :
    GenState × Except GenError EncodedImage :=
  let (d', h', bres) := ImageCache.getitem env s.imageDict s.heap basename
  let s1 := { s with imageDict := d', heap := h' }
  match bres with
  | .error e => (s1, .error e)
  | .ok base =>
      let (h2, ires) := convert_to_image env s1.heap image
      let s2 := { s1 with heap := h2 }
      match ires with
      | .error e => (s2, .error e)
      | .ok rimg =>
          match s2.heap.get rimg with
          | none => (s2, .error .heapFault)
          | some overlayv =>
              let (ov, s3) :=
                match resize with
                | some dims =>
                    let (_, h3) := s2.heap.alloc (ImageVal.resized overlayv dims)
                    (ImageVal.resized overlayv dims, { s2 with heap := h3 })
                | none => (overlayv, s2)
              match s3.heap.get base with
              | none => (s3, .error .heapFault)
              | some basev =>
                  let newbase := ImageVal.pasted basev ov coords
                  let s4 := { s3 with heap := s3.heap.set base newbase }
                  (s4, .ok (image_to_bytesBuf newbase format))

/-- The image argument of writetext: a cache key or a decoded image. -/
inductive WriteTextImage where
  | key (k : String)
  | img (r : Nat)
deriving DecidableEq, Repr

/-- The return_type argument of writetext: Image.Image, io.BytesIO, bytes,
or any other class. -/
inductive ReturnType where
  | tImage
  | tBuffer
  | tBytes
  | tOther (name : String)
deriving DecidableEq, Repr

inductive WriteTextOut where
  | outImage (r : Nat)
  | outBuffer (b : EncodedImage)
  | outBytes (b : EncodedImage)
deriving DecidableEq, Repr

/-- BaseImageGenerator.writetext (core.py lines 238-271): resolve a string
argument through the image cache (getting a fresh copy), strip the text,
resolve the font through the font cache, compute the draw origin, draw the
text into the resolved image in place, and return the image itself, an
encoded buffer, or encoded bytes according to return_type; any other
return_type raises (the UnsupportedOutput error). -/
def writetext (env : DiskEnv) (s : GenState) (image : WriteTextImage)
    (fontname : String) (size : Nat) (center : Int × Int) (text : String)
    (fill : Nat × Nat × Nat) (format : String) (return_type : ReturnType) :
    GenState × Except GenError WriteTextOut :=
  let resolved : GenState × Except GenError Nat :=
    match image with
    | .key k =>
        let (d', h', res) := ImageCache.getitem env s.imageDict s.heap k
        ({ s with imageDict := d', heap := h' }, res)
    | .img r => (s, .ok r)
  match resolved with
  | (s1, .error e) => (s1, .error e)
  | (s1, .ok r) =>
      let t := pyStrip text
      let fres := FontCache.getitem env s1.fontDict s1.nextOid (fontname, size)
      let s2 := { s1 with fontDict := fres.cacheDict, nextOid := fres.nextOid }
      match fres.result with
      | .error e => (s2, .error e)
      | .ok font =>
          let xy := writetextXY (env.getlength font.data font.size) size center t
          match s2.heap.get r with
          | none => (s2, .error .heapFault)
          | some v =>
              let v' := ImageVal.texted v xy t fill fontname size
              let s3 := { s2 with heap := s2.heap.set r v' }
              match return_type with
              | .tImage => (s3, .ok (.outImage r))
              | .tBuffer => (s3, .ok (.outBuffer (image_to_bytesBuf v' format)))
              | .tBytes => (s3, .ok (.outBytes (image_to_bytesBuf v' format)))
              | .tOther _ => (s3, .error .unsupportedOutput)

/-- A dict of pre-seeded image cache entries, as the caller supplies it. -/
abbrev ImgDict := List (String × Nat)

/-- The image_cache.copy() of BaseImageGenerator.__init__ (core.py line
147), with dict objects themselves held in a store so that dict identity
is observable: a new dict holding the same entries (the same value
references) is allocated, and its index returned. -/
def copyImageDict (ds : List ImgDict) (src : Nat) : Nat × List ImgDict :=
  (ds.length, ds ++ [(ds[src]?).getD []])

/-- A disk environment with nothing on disk, for concrete instances. -/
def envEmpty : DiskEnv :=
  ⟨fun _ => none, fun _ => none, fun _ => false, fun _ _ _ => 0⟩

/-- A disk environment holding one parsable font file F.ttf. -/
def envFont : DiskEnv :=
  ⟨fun f => if f = "F.ttf" then some [1, 2, 3] else none,
   fun _ => none, fun _ => true, fun _ _ _ => 0⟩


theorem dictGet_dictSet {α : Type} (d : List (String × α)) (k k' : String) (v : α) :
    dictGet (dictSet d k v) k' = if k = k' then some v else dictGet d k' := by
  induction d with
  | nil => simp [dictSet, dictGet]
  | cons p rest ih =>
    obtain ⟨k'', v''⟩ := p
    by_cases h1 : k'' = k <;> by_cases h2 : k = k' <;>
      simp_all [dictSet, dictGet]

theorem Heap.get_alloc_self (h : Heap) (v : ImageVal) :
    (h.alloc v).2.get (h.alloc v).1 = some v := by
  simp [Heap.alloc, Heap.get]

theorem Heap.get_alloc_lt (h : Heap) (v : ImageVal) (r : Nat) (hr : r < h.size) :
    (h.alloc v).2.get r = h.get r := by
  have hr' : r < h.objs.length := hr
  simp [Heap.alloc, Heap.get, List.getElem?_append, hr']

theorem Heap.get_set_ne (h : Heap) (r r' : Nat) (w : ImageVal) (hne : r' ≠ r) :
    (h.set r' w).get r = h.get r := by
  simp [Heap.set, Heap.get, List.getElem?_set_ne hne]

theorem Heap.get_set_self (h : Heap) (r : Nat) (w : ImageVal) (hr : r < h.size) :
    (h.set r w).get r = some w := by
  have hr' : r < h.objs.length := hr
  simp [Heap.set, Heap.get, List.getElem?_set_eq_of_lt w hr']

theorem Heap.get_some_lt (h : Heap) (r : Nat) (v : ImageVal) (hv : h.get r = some v) :
    r < h.size := by
  have := List.getElem?_eq_some.mp hv
  exact this.1

theorem Heap.size_alloc (h : Heap) (v : ImageVal) :
    (h.alloc v).2.size = h.size + 1 := by
  simp [Heap.alloc, Heap.size]


/-- Claim C1: for every key, ImageCache.__getitem__ returns an independent
copy of the cached decoded image, never the live cached object.  In both the
cache-hit and the cache-miss case the returned reference differs from every
reference the cache mapping holds afterwards, its contents equal the cached
contents for the requested key, and mutating the returned object (as paste
and writetext do) leaves every cached entry unchanged. -/
theorem imageCache_getitem_returns_independent_copy
    (env : DiskEnv) (d : List (String × Nat)) (h : Heap) (key : String)
    (d' : List (String × Nat)) (h' : Heap) (r' : Nat)
    (hwf : ∀ k r, dictGet d k = some r → r < h.size)
    (heq : ImageCache.getitem env d h key = (d', h', .ok r')) :
    (∀ k rc, dictGet d' k = some rc → rc ≠ r') ∧
    (∃ rc, dictGet d' key = some rc ∧ h'.get rc = h'.get r') ∧
    (∀ w k rc, dictGet d' k = some rc → (h'.set r' w).get rc = h'.get rc) := by
  rcases hd : dictGet d key with _ | rc0
  · rcases hf : env.files key with _ | b
    · simp [ImageCache.getitem, hd, hf] at heq
    · rcases hdec : env.decodeImage b with _ | v
      · simp [ImageCache.getitem, hd, hf, hdec] at heq
      · simp only [ImageCache.getitem, hd, hf, hdec, Heap.alloc, Prod.mk.injEq,
          Except.ok.injEq] at heq
        obtain ⟨hd', hh', hr'⟩ := heq
        subst hd'
        subst hh'
        subst hr'
        have hlen : (h.objs ++ [v]).length = h.objs.length + 1 := by simp
        have ha : ∀ k rc, dictGet (dictSet d key h.objs.length) k = some rc →
            rc ≠ (h.objs ++ [v]).length := by
          intro k rc hkrc
          rw [dictGet_dictSet] at hkrc
          by_cases hkey : key = k
          · rw [if_pos hkey] at hkrc
            injection hkrc with hrc
            omega
          · rw [if_neg hkey] at hkrc
            have hlt : rc < h.size := hwf k rc hkrc
            have hlt2 : rc < h.objs.length := hlt
            omega
        refine ⟨ha, ⟨h.objs.length, ?_, ?_⟩, ?_⟩
        · rw [dictGet_dictSet]
          simp
        · have h1 : (Heap.mk ((h.objs ++ [v]) ++ [v])).get h.objs.length = some v := by
            show ((h.objs ++ [v]) ++ [v])[h.objs.length]? = some v
            rw [List.getElem?_append_left (by omega), List.getElem?_concat_length]
          have h2 : (Heap.mk ((h.objs ++ [v]) ++ [v])).get (h.objs ++ [v]).length
              = some v := by
            show ((h.objs ++ [v]) ++ [v])[(h.objs ++ [v]).length]? = some v
            rw [List.getElem?_concat_length]
          rw [h1, h2]
        · intro w k rc hkrc
          exact Heap.get_set_ne _ _ _ _ (Ne.symm (ha k rc hkrc))
  · rcases hv : h.get rc0 with _ | v
    · exfalso
      have hlt : rc0 < h.size := hwf key rc0 hd
      have hnone : h.objs[rc0]? = none := hv
      rw [List.getElem?_eq_none_iff] at hnone
      have hlt2 : rc0 < h.objs.length := hlt
      omega
    · simp only [ImageCache.getitem, hd, hv, Heap.alloc, Prod.mk.injEq,
        Except.ok.injEq] at heq
      obtain ⟨hd', hh', hr'⟩ := heq
      subst hd'
      subst hh'
      subst hr'
      have ha : ∀ k rc, dictGet d k = some rc → rc ≠ h.objs.length := by
        intro k rc hkrc
        have hlt : rc < h.size := hwf k rc hkrc
        have hlt2 : rc < h.objs.length := hlt
        omega
      refine ⟨ha, ⟨rc0, hd, ?_⟩, ?_⟩
      · have hlt : rc0 < h.objs.length := hwf key rc0 hd
        have h1 : (Heap.mk (h.objs ++ [v])).get rc0 = some v := by
          show (h.objs ++ [v])[rc0]? = some v
          rw [List.getElem?_append_left hlt]
          exact hv
        have h2 : (Heap.mk (h.objs ++ [v])).get h.objs.length = some v := by
          show (h.objs ++ [v])[h.objs.length]? = some v
          rw [List.getElem?_concat_length]
        rw [h1, h2]
      · intro w k rc hkrc
        exact Heap.get_set_ne _ _ _ _ (Ne.symm (ha k rc hkrc))

/-- Concrete instance of the theorem of claim C1. -/
theorem imageCache_getitem_returns_independent_copy_witness :
    (∀ k rc, dictGet [("a", (0 : Nat))] k = some rc → rc ≠ 1) ∧
    (∃ rc, dictGet [("a", (0 : Nat))] "a" = some rc ∧
      (Heap.mk [.base "x", .base "x"]).get rc = (Heap.mk [.base "x", .base "x"]).get 1) ∧
    (∀ w k rc, dictGet [("a", (0 : Nat))] k = some rc →
      ((Heap.mk [.base "x", .base "x"]).set 1 w).get rc
        = (Heap.mk [.base "x", .base "x"]).get rc) :=
  imageCache_getitem_returns_independent_copy envEmpty [("a", 0)] ⟨[.base "x"]⟩ "a"
    [("a", 0)] ⟨[.base "x", .base "x"]⟩ 1
    (by
      intro k r hkr
      simp only [dictGet] at hkr
      split at hkr
      · injection hkr with h0
        show r < 1
        omega
      · exact Option.noConfusion hkr)
    (by decide)


theorem dictGet_isSome_iff_mem {α : Type} (d : List (String × α)) (k : String) :
    (dictGet d k).isSome = true ↔ k ∈ d.map Prod.fst := by
  induction d with
  | nil => simp [dictGet]
  | cons p rest ih =>
    obtain ⟨k'', v''⟩ := p
    by_cases h1 : k'' = k
    · subst h1
      simp [dictGet]
    · simp [dictGet, h1, ih, Ne.symm h1]

theorem dictGet_eq_none_of_not_mem {α : Type} (d : List (String × α)) (k : String)
    (h : k ∉ d.map Prod.fst) : dictGet d k = none := by
  cases hg : dictGet d k with
  | none => rfl
  | some v =>
    exact absurd ((dictGet_isSome_iff_mem d k).mp (by simp [hg])) h

theorem dictGet_dictDel_ne {α : Type} (d : List (String × α)) (k k' : String)
    (hne : k ≠ k') : dictGet (dictDel d k) k' = dictGet d k' := by
  induction d with
  | nil => rfl
  | cons p rest ih =>
    obtain ⟨k'', v''⟩ := p
    by_cases h1 : k'' = k
    · subst h1
      simp [dictDel, dictGet, hne]
    · simp [dictDel, h1, dictGet, ih]

theorem dictGet_dictDel_self {α : Type} (d : List (String × α)) (k : String)
    (hnd : (d.map Prod.fst).Nodup) : dictGet (dictDel d k) k = none := by
  induction d with
  | nil => rfl
  | cons p rest ih =>
    obtain ⟨k'', v''⟩ := p
    simp only [List.map_cons, List.nodup_cons] at hnd
    obtain ⟨hnotin, hnd'⟩ := hnd
    by_cases h1 : k'' = k
    · subst h1
      simp only [dictDel, if_pos rfl]
      exact dictGet_eq_none_of_not_mem rest _ hnotin
    · simp [dictDel, h1, dictGet, ih hnd']

/-- Claim C2, evaluated at the failing input: on a FontCache miss the store
into the cache mapping executes WITHOUT holding the lock (the code writes
cache_dict directly instead of going through the locked __setitem__), so the
claim that every store of both caches is performed under the lock fails.
The remaining conjuncts show the rest of the claim holds on the code: both
presence checks run under the lock, the ImageCache store runs under the
lock, and both disk loads run unlocked. -/
theorem fontCache_miss_store_not_under_lock :
    opsSynchronized (FontCache.getitemOps false) .storeKey = false ∧
    opsSynchronized (FontCache.getitemOps false) .checkKey = true ∧
    opsSynchronized (FontCache.getitemOps true) .checkKey = true ∧
    opsUnlocked (FontCache.getitemOps false) .loadDisk = true ∧
    opsSynchronized (ImageCache.getitemOps false) .storeKey = true ∧
    opsSynchronized (ImageCache.getitemOps false) .checkKey = true ∧
    opsSynchronized (ImageCache.getitemOps true) .checkKey = true ∧
    opsUnlocked (ImageCache.getitemOps false) .loadDisk = true ∧
    lockTrace (FontCache.getitemOps false) false
      = [(.acquire, true), (.checkKey, true), (.release, false),
         (.loadDisk, false), (.storeKey, false)] := by
  decide

/-- Claim C6 counterexample: AssetCache.__iter__ and __len__ never acquire
the mutual-exclusion lock, refuting the claim that all four of set, delete,
iteration and size are synchronized. -/
theorem assetCache_iter_len_unsynchronized_cex :
    AssetCache.iterOps.contains .acquire = false ∧
    AssetCache.lenOps.contains .acquire = false ∧
    opsSynchronized AssetCache.iterOps .readDict = false ∧
    opsSynchronized AssetCache.lenOps .readDict = false := by
  decide

/-- Claim C6 as amended: AssetCache set and delete acquire the lock and
pass straight through to the underlying mapping (set binds the value to the
key, delete removes exactly the key and raises KeyError when it is absent),
while iteration and size are unsynchronized direct pass-throughs reflecting
exactly the keys and the entry count of the mapping. -/
theorem assetCache_ops_lock_and_passthrough {α : Type} (d : List (String × α))
    (k k' : String) (v dv : α)
    (hnd : (d.map Prod.fst).Nodup) (hdv : dictGet d k = some dv) :
    (AssetCache.setitemOps.contains .acquire = true ∧
      opsSynchronized AssetCache.setitemOps .storeKey = true) ∧
    (AssetCache.delitemOps.contains .acquire = true ∧
      opsSynchronized AssetCache.delitemOps .delKey = true) ∧
    (AssetCache.iterOps.contains .acquire = false ∧
      AssetCache.lenOps.contains .acquire = false) ∧
    dictGet (AssetCache.setitem d k v) k' = (if k = k' then some v else dictGet d k') ∧
    (AssetCache.delitem d k = .ok (dictDel d k) ∧
      dictGet (dictDel d k) k = none ∧
      (k ≠ k' → dictGet (dictDel d k) k' = dictGet d k')) ∧
    (∀ dmiss : List (String × α), dictGet dmiss k = none →
      AssetCache.delitem dmiss k = .error .keyError) ∧
    AssetCache.size d = (AssetCache.iterKeys d).length ∧
    ((dictGet d k').isSome = true ↔ k' ∈ AssetCache.iterKeys d) := by
  refine ⟨by decide, by decide, by decide, dictGet_dictSet d k k' v, ⟨?_, ?_, ?_⟩, ?_, ?_, ?_⟩
  · simp [AssetCache.delitem, hdv]
  · exact dictGet_dictDel_self d k hnd
  · intro hne
    exact dictGet_dictDel_ne d k k' hne
  · intro dmiss hmiss
    simp [AssetCache.delitem, hmiss]
  · simp [AssetCache.size, AssetCache.iterKeys]
  · exact dictGet_isSome_iff_mem d k'

/-- Concrete instance of the theorem of claim C6. -/
theorem assetCache_ops_lock_and_passthrough_witness :
    dictGet (AssetCache.setitem [("a", 1), ("b", 2)] "a" 7) "b" = some 2 ∧
    AssetCache.delitem [("a", 1), ("b", 2)] "a" = .ok [("b", 2)] ∧
    dictGet (dictDel [("a", 1), ("b", 2)] "a") "a" = none := by
  have h := assetCache_ops_lock_and_passthrough (α := Nat) [("a", 1), ("b", 2)]
    "a" "b" 7 1 (by decide) (by decide)
  refine ⟨?_, ?_, h.2.2.2.2.1.2.1⟩
  · rw [h.2.2.2.1]
    decide
  · have := h.2.2.2.2.1.1
    rw [this]
    decide


/-- Claim C9: cache population is atomic on error.  If ImageCache get
fails (file absent or bytes undecodable) the cache dict and the heap are
returned unchanged, and if FontCache get fails (file absent or font bytes
unparsable) its cache dict and allocation counter are unchanged: the store
happens only after load and decode succeed. -/
theorem cache_population_atomic_on_error
    (env : DiskEnv) (d d1 : List (String × Nat)) (h h1 : Heap) (key : String)
    (e1 e2 : GenError) (fd : List (String × Bytes)) (oid : Nat)
    (fkey : String × Nat) (fres : FontGetResult)
    (himg : ImageCache.getitem env d h key = (d1, h1, .error e1))
    (hfont : FontCache.getitem env fd oid fkey = fres)
    (hfe : fres.result = .error e2) :
    d1 = d ∧ h1 = h ∧ fres.cacheDict = fd ∧ fres.nextOid = oid := by
  have himage : d1 = d ∧ h1 = h := by
    rcases hd : dictGet d key with _ | rc0
    · rcases hf : env.files key with _ | b
      · simp only [ImageCache.getitem, hd, hf, Prod.mk.injEq] at himg
        exact ⟨himg.1.symm, himg.2.1.symm⟩
      · rcases hdec : env.decodeImage b with _ | v
        · simp only [ImageCache.getitem, hd, hf, hdec, Prod.mk.injEq] at himg
          exact ⟨himg.1.symm, himg.2.1.symm⟩
        · simp [ImageCache.getitem, hd, hf, hdec] at himg
    · rcases hv : h.get rc0 with _ | v
      · simp only [ImageCache.getitem, hd, hv, Prod.mk.injEq] at himg
        exact ⟨himg.1.symm, himg.2.1.symm⟩
      · simp [ImageCache.getitem, hd, hv] at himg
  refine ⟨himage.1, himage.2, ?_⟩
  obtain ⟨filename, size⟩ := fkey
  subst hfont
  rcases hfd : dictGet fd filename with _ | b
  · rcases hff : env.files filename with _ | fb
    · simp [FontCache.getitem, hfd, hff]
    · rcases hpf : env.parseFont fb with _ | _
      · simp [FontCache.getitem, hfd, hff, hpf]
      · simp [FontCache.getitem, hfd, hff, hpf] at hfe
  · rcases hpf : env.parseFont b with _ | _
    · simp [FontCache.getitem, hfd, hpf]
    · simp [FontCache.getitem, hfd, hpf] at hfe

/-- Concrete instance of the theorem of claim C9. -/
theorem cache_population_atomic_on_error_witness :
    ([("a", (0 : Nat))] : List (String × Nat)) = [("a", 0)] ∧
    Heap.mk [.base "x"] = Heap.mk [.base "x"] ∧
    (FontCache.getitem envEmpty [] 0 ("missing.ttf", 10)).cacheDict = [] ∧
    (FontCache.getitem envEmpty [] 0 ("missing.ttf", 10)).nextOid = 0 :=
  cache_population_atomic_on_error envEmpty [("a", 0)] [("a", 0)]
    (Heap.mk [.base "x"]) (Heap.mk [.base "x"]) "missing.png" .notFound .notFound
    [] 0 ("missing.ttf", 10) (FontCache.getitem envEmpty [] 0 ("missing.ttf", 10))
    (by decide) rfl (by decide)


/-- Claim C4: FontCache.__getitem__, keyed by (filename, size), caches only
the raw file bytes under the filename alone and builds a fresh sized font
object from them on every call: a first get on a missing filename performs
exactly one disk read and stores exactly the raw bytes; a second get with a
different size performs zero reads and returns a distinct font object of
the other size; and any call that finds the filename cached performs zero
disk reads. -/
theorem fontCache_bytes_only_single_disk_read
    (env : DiskEnv) (d : List (String × Bytes)) (oid : Nat) (filename : String)
    (sz1 sz2 : Nat) (b : Bytes)
    (hmiss : dictGet d filename = none)
    (hfile : env.files filename = some b)
    (hparse : env.parseFont b = true) :
    FontCache.getitem env d oid (filename, sz1)
      = ⟨dictSet d filename b, oid + 1, 1, .ok ⟨b, sz1, oid⟩⟩ ∧
    FontCache.getitem env (dictSet d filename b) (oid + 1) (filename, sz2)
      = ⟨dictSet d filename b, oid + 2, 0, .ok ⟨b, sz2, oid + 1⟩⟩ ∧
    (FontObj.mk b sz1 oid).size = sz1 ∧
    (FontObj.mk b sz2 (oid + 1)).size = sz2 ∧
    FontObj.mk b sz1 oid ≠ FontObj.mk b sz2 (oid + 1) ∧
    (∀ d0 oid0 sz b0, dictGet d0 filename = some b0 →
      (FontCache.getitem env d0 oid0 (filename, sz)).diskReads = 0) := by
  have hhit : dictGet (dictSet d filename b) filename = some b := by
    rw [dictGet_dictSet]
    simp
  refine ⟨?_, ?_, rfl, rfl, ?_, ?_⟩
  · simp [FontCache.getitem, hmiss, hfile, hparse]
  · simp [FontCache.getitem, hhit, hparse]
  · intro hcontra
    have : oid = oid + 1 := congrArg FontObj.oid hcontra
    omega
  · intro d0 oid0 sz b0 hb0
    rcases hpf : env.parseFont b0 with _ | _ <;>
      simp [FontCache.getitem, hb0, hpf]

/-- Concrete instance of the theorem of claim C4. -/
theorem fontCache_bytes_only_single_disk_read_witness :
    FontCache.getitem envFont [] 0 ("F.ttf", 10)
      = ⟨[("F.ttf", [1, 2, 3])], 1, 1, .ok ⟨[1, 2, 3], 10, 0⟩⟩ ∧
    FontCache.getitem envFont [("F.ttf", [1, 2, 3])] 1 ("F.ttf", 40)
      = ⟨[("F.ttf", [1, 2, 3])], 2, 0, .ok ⟨[1, 2, 3], 40, 1⟩⟩ ∧
    FontObj.mk [1, 2, 3] 10 0 ≠ FontObj.mk [1, 2, 3] 40 1 := by
  have h := fontCache_bytes_only_single_disk_read envFont [] 0 "F.ttf" 10 40
    [1, 2, 3] (by decide) (by decide) (by decide)
  exact ⟨h.1, h.2.1, h.2.2.2.2.1⟩


/-- Claim C3 counterexample: the code computes the draw origin with Python
floor division (length // 2), not exact halving.  With a font metric
measuring HELLO at width 5, size 40 and center (200, 150), the code origin
is (198, 130) while the origin claimed (center.x - width / 2) would be
(197.5, 130); the x components differ. -/
theorem writetext_origin_exact_halving_cex :
    writetextXY (fun _ => (5 : ℚ)) 40 (200, 150) "HELLO" = (198, 130) ∧
    writetextXYSpec (fun _ => (5 : ℚ)) 40 (200, 150) "HELLO" = (395 / 2, 130) ∧
    (writetextXY (fun _ => (5 : ℚ)) 40 (200, 150) "HELLO").1
      ≠ (writetextXYSpec (fun _ => (5 : ℚ)) 40 (200, 150) "HELLO").1 := by
  have h1 : pySplit (pyStrip "HELLO") = ["HELLO"] := by decide
  refine ⟨?_, ?_, ?_⟩ <;>
    simp only [writetextXY, writetextXYSpec, h1, List.map, listMaxQ, List.foldl,
      List.length] <;>
    try norm_num [Int.floor_eq_iff]

/-- Claim C3 as amended: writetext trims the text, splits it on line
breaks, takes the block width as the maximum per-line measured length, the
block height as size times the line count, and draws at origin
(center.x - floor(width / 2), center.y - floor(height / 2)) -- floor
division, as the counterexample forces.  Shown for a one-line text (where
the scenario origin at size 40 centered at (200, 150) is
(200 - floor(width / 2), 150 - 20)) and for a padded two-line text. -/
theorem writetext_origin_formula (metric : String → ℚ) (size : Nat)
    (center : Int × Int) :
    writetextXY metric size center "HELLO"
      = ((center.1 : ℚ) - ((⌊metric "HELLO" / 2⌋ : ℤ) : ℚ),
         center.2 - ((size / 2 : Nat) : ℤ)) ∧
    writetextXY metric size center " A\nBC "
      = ((center.1 : ℚ) - ((⌊max (metric "A") (metric "BC") / 2⌋ : ℤ) : ℚ),
         center.2 - ((size * 2 / 2 : Nat) : ℤ)) ∧
    writetextXY metric 40 (200, 150) "HELLO"
      = ((200 : ℚ) - ((⌊metric "HELLO" / 2⌋ : ℤ) : ℚ), 130) := by
  have h1 : pySplit (pyStrip "HELLO") = ["HELLO"] := by decide
  have h2 : pySplit (pyStrip " A\nBC ") = ["A", "BC"] := by decide
  refine ⟨?_, ?_, ?_⟩ <;>
    simp only [writetextXY, h1, h2, List.map, listMaxQ, List.foldl, List.length] <;>
    try norm_num


/-- Claim C5 counterexample: the pre-seed copy at construction is shallow,
so the image objects inside the caller dict stay aliased.  Seeding with a
dict holding one image and then mutating that very image object makes a
subsequent cache get return the mutated contents instead of the seeded
ones, refuting the claim that no mutation of the contained objects can
change what a cache get returns. -/
theorem preseed_value_aliasing_cex :
    copyImageDict [[("a", 0)]] 0 = (1, [[("a", 0)], [("a", 0)]]) ∧
    (ImageCache.getitem envEmpty [("a", 0)] (Heap.mk [.base "seed"]) "a").2.2
      = .ok 1 ∧
    ((ImageCache.getitem envEmpty [("a", 0)] (Heap.mk [.base "seed"]) "a").2.1).get 1
      = some (.base "seed") ∧
    (ImageCache.getitem envEmpty [("a", 0)]
      ((Heap.mk [.base "seed"]).set 0 (.base "mutated")) "a").2.2 = .ok 1 ∧
    ((ImageCache.getitem envEmpty [("a", 0)]
      ((Heap.mk [.base "seed"]).set 0 (.base "mutated")) "a").2.1).get 1
      = some (.base "mutated") ∧
    ImageVal.base "seed" ≠ ImageVal.base "mutated" := by
  decide

/-- Claim C5 as amended: the caller dict itself is copied, never aliased,
at construction: the new cache dict is a distinct object holding the same
entries, mutating the cache dict leaves the caller dict unchanged and vice
versa, and no cache get mutates any pre-existing heap object.  (Only the
dict is copied; the contained image objects stay shared, as the
counterexample shows.) -/
theorem preseed_dict_copied_not_aliased
    (ds : List ImgDict) (src n : Nat) (ds' : List ImgDict)
    (hsrc : src < ds.length)
    (hcopy : copyImageDict ds src = (n, ds')) :
    n ≠ src ∧
    ds'[src]? = ds[src]? ∧
    ds'[n]? = ds[src]? ∧
    (∀ d2, (ds'.set n d2)[src]? = ds'[src]?) ∧
    (∀ d2, (ds'.set src d2)[n]? = ds'[n]?) ∧
    (∀ env d h key r, r < h.size →
      ((ImageCache.getitem env d h key).2.1).get r = h.get r) := by
  simp only [copyImageDict, Prod.mk.injEq] at hcopy
  obtain ⟨hn, hds⟩ := hcopy
  subst hn
  subst hds
  have hne : ds.length ≠ src := by omega
  have hsome := List.getElem?_eq_getElem hsrc
  refine ⟨hne, ?_, ?_, ?_, ?_, ?_⟩
  · exact List.getElem?_append_left hsrc
  · rw [List.getElem?_concat_length, hsome]
    simp [hsome]
  · intro d2
    exact List.getElem?_set_ne hne
  · intro d2
    exact List.getElem?_set_ne (by omega)
  · intro env d h key r hr
    have hr' : r < h.objs.length := hr
    rcases hd : dictGet d key with _ | rc0
    · rcases hf : env.files key with _ | b
      · simp [ImageCache.getitem, hd, hf]
      · rcases hdec : env.decodeImage b with _ | v
        · simp [ImageCache.getitem, hd, hf, hdec]
        · simp only [ImageCache.getitem, hd, hf, hdec, Heap.alloc, Heap.get]
          rw [List.getElem?_append_left (by simp; omega),
            List.getElem?_append_left hr']
    · rcases hv : h.get rc0 with _ | v
      · simp [ImageCache.getitem, hd, hv]
      · have hv' : h.objs[rc0]? = some v := hv
        simp only [ImageCache.getitem, hd, Heap.get, Heap.alloc, hv']
        rw [List.getElem?_append_left hr']

/-- Concrete instance of the theorem of claim C5. -/
theorem preseed_dict_copied_not_aliased_witness :
    (1 : Nat) ≠ 0 ∧
    ([[("a", (0 : Nat))], [("a", 0)]].set 1 [])[0]? = some [("a", 0)] ∧
    ([[("a", (0 : Nat))], [("a", 0)]].set 0 [])[1]? = some [("a", 0)] := by
  have h := preseed_dict_copied_not_aliased [[("a", 0)]] 0 1 [[("a", 0)], [("a", 0)]]
    (by decide) (by decide)
  refine ⟨h.1, ?_, ?_⟩
  · rw [h.2.2.2.1 []]
    decide
  · rw [h.2.2.2.2.1 []]
    decide

/-- Claim C7: convert_to_image accepts exactly the four overlay
representations (decoded image, raw bytes, byte buffer, path string) and
fails with the InvalidInput error precisely on any other representation;
paste, after fetching its base image, fails with InvalidInput and produces
no output when given such an overlay. -/
theorem convert_to_image_invalid_input_iff_other
    (env : DiskEnv) (h : Heap) (arg : PyImageArg) (s : GenState)
    (basename : String) (coords : Int × Int) (fmt : String)
    (rsz : Option (Nat × Nat)) (d1 : List (String × Nat)) (h1 : Heap) (rb : Nat)
    (hbase : ImageCache.getitem env s.imageDict s.heap basename = (d1, h1, .ok rb)) :
    ((convert_to_image env h arg).2 = .error .invalidInput ↔ arg.isOther = true) ∧
    (arg.isOther = true →
      (paste env s basename arg coords fmt rsz).2 = .error .invalidInput) := by
  constructor
  · cases arg with
    | pilImage r => simp [convert_to_image, PyImageArg.isOther]
    | rawBytes b =>
        rcases hdec : env.decodeImage b with _ | v <;>
          simp [convert_to_image, hdec, PyImageArg.isOther]
    | byteBuffer b =>
        rcases hdec : env.decodeImage b with _ | v <;>
          simp [convert_to_image, hdec, PyImageArg.isOther]
    | pathStr p =>
        rcases hf : env.files p with _ | b
        · simp [convert_to_image, hf, PyImageArg.isOther]
        · rcases hdec : env.decodeImage b with _ | v <;>
            simp [convert_to_image, hf, hdec, PyImageArg.isOther]
    | other tag => simp [convert_to_image, PyImageArg.isOther]
  · intro hother
    cases arg with
    | other tag => simp [paste, hbase, convert_to_image]
    | pilImage r => simp [PyImageArg.isOther] at hother
    | rawBytes b => simp [PyImageArg.isOther] at hother
    | byteBuffer b => simp [PyImageArg.isOther] at hother
    | pathStr p => simp [PyImageArg.isOther] at hother

/-- Concrete instance of the theorem of claim C7. -/
theorem convert_to_image_invalid_input_iff_other_witness :
    ((convert_to_image envEmpty (Heap.mk []) (.other "dict")).2
        = .error .invalidInput ↔ (PyImageArg.other "dict").isOther = true) ∧
    ((PyImageArg.other "dict").isOther = true →
      (paste envEmpty ⟨[("a", 0)], [], Heap.mk [.base "x"], 0⟩ "a" (.other "dict")
        (3, 4) "JPEG" none).2 = .error .invalidInput) :=
  convert_to_image_invalid_input_iff_other envEmpty (Heap.mk []) (.other "dict")
    ⟨[("a", 0)], [], Heap.mk [.base "x"], 0⟩ "a" (3, 4) "JPEG" none
    [("a", 0)] (Heap.mk [.base "x", .base "x"]) 1 (by decide)

/-- Claim C8: with async_mode false, invoking a bound operation through
Generator.__call__ returns exactly the outcome of the operation applied to
the same arguments, directly; with async_mode true it returns an awaitable
built by submitting the partially applied operation to the executor via the
loop, and awaiting that handle yields exactly the same outcome. -/
theorem generator_dispatch_modes {α ε ρ : Type} (func : α → Except ε ρ) (args : α) :
    Generator.call false func args = .direct (func args) ∧
    ∃ fut, Generator.call true func args = .awaitable fut ∧ fut.await = func args :=
  ⟨rfl, ⟨runInExecutor (functoolsPartial func args), rfl, rfl⟩⟩


theorem Heap.size_set (h : Heap) (r : Nat) (w : ImageVal) :
    (h.set r w).size = h.size := by
  simp [Heap.set, Heap.size]

/-- Claim C10: when writetext is given a decoded image object rather than
a cache key, it draws the text into that very object in place, and with
return_type Image.Image it returns that same object, not a copy.  A second
writetext consuming the returned object therefore yields one image carrying
both texts (as the undertaker recipe relies on), here returned as an
encoded buffer of the doubly texted contents. -/
theorem writetext_draws_in_place_and_returns_same_object
    (env : DiskEnv) (s : GenState) (r : Nat) (v : ImageVal) (fontname : String)
    (size1 size2 : Nat) (c1 c2 : Int × Int) (t1 t2 : String)
    (fill1 fill2 : Nat × Nat × Nat) (fmt : String) (fb : Bytes)
    (hv : s.heap.get r = some v)
    (hfont : dictGet s.fontDict fontname = some fb)
    (hparse : env.parseFont fb = true) :
    ∃ s1 xy1,
      writetext env s (.img r) fontname size1 c1 t1 fill1 fmt .tImage
        = (s1, .ok (.outImage r)) ∧
      s1.heap.get r = some (.texted v xy1 (pyStrip t1) fill1 fontname size1) ∧
      s1.imageDict = s.imageDict ∧ s1.fontDict = s.fontDict ∧
      ∃ s2 xy2,
        writetext env s1 (.img r) fontname size2 c2 t2 fill2 fmt .tBuffer
          = (s2, .ok (.outBuffer (image_to_bytesBuf
              (.texted (.texted v xy1 (pyStrip t1) fill1 fontname size1) xy2
                (pyStrip t2) fill2 fontname size2) fmt))) ∧
        s2.heap.get r
          = some (.texted (.texted v xy1 (pyStrip t1) fill1 fontname size1) xy2
              (pyStrip t2) fill2 fontname size2) := by
  have hrlt : r < s.heap.size := Heap.get_some_lt s.heap r v hv
  refine ⟨⟨s.imageDict, s.fontDict,
      s.heap.set r (ImageVal.texted v
        (writetextXY (env.getlength fb size1) size1 c1 (pyStrip t1)) (pyStrip t1)
        fill1 fontname size1),
      s.nextOid + 1⟩,
    writetextXY (env.getlength fb size1) size1 c1 (pyStrip t1),
    ?_, ?_, rfl, rfl, ?_⟩
  · simp [writetext, FontCache.getitem, hfont, hparse, hv]
  · exact Heap.get_set_self s.heap r _ hrlt
  · refine ⟨⟨s.imageDict, s.fontDict,
        (s.heap.set r (ImageVal.texted v
          (writetextXY (env.getlength fb size1) size1 c1 (pyStrip t1)) (pyStrip t1)
          fill1 fontname size1)).set r
            (ImageVal.texted (ImageVal.texted v
              (writetextXY (env.getlength fb size1) size1 c1 (pyStrip t1))
              (pyStrip t1) fill1 fontname size1)
            (writetextXY (env.getlength fb size2) size2 c2 (pyStrip t2))
            (pyStrip t2) fill2 fontname size2),
        s.nextOid + 2⟩,
      writetextXY (env.getlength fb size2) size2 c2 (pyStrip t2), ?_, ?_⟩
    · simp [writetext, FontCache.getitem, hfont, hparse,
        Heap.get_set_self s.heap r _ hrlt]
    · exact Heap.get_set_self _ r _ (by rw [Heap.size_set]; exact hrlt)

/-- Concrete instance of the theorem of claim C10. -/
theorem writetext_draws_in_place_and_returns_same_object_witness :
    ∃ s1 xy1,
      writetext envFont ⟨[], [("f", [9])], Heap.mk [.base "x"], 0⟩ (.img 0) "f" 50
          (348, 444) "one" (255, 255, 255) "JPEG" .tImage
        = (s1, .ok (.outImage 0)) ∧
      s1.heap.get 0
        = some (.texted (.base "x") xy1 (pyStrip "one") (255, 255, 255) "f" 50) ∧
      s1.imageDict = [] ∧ s1.fontDict = [("f", [9])] ∧
      ∃ s2 xy2,
        writetext envFont s1 (.img 0) "f" 50 (549, 176) "two" (255, 255, 255)
            "JPEG" .tBuffer
          = (s2, .ok (.outBuffer (image_to_bytesBuf
              (.texted (.texted (.base "x") xy1 (pyStrip "one") (255, 255, 255) "f" 50)
                xy2 (pyStrip "two") (255, 255, 255) "f" 50) "JPEG"))) ∧
        s2.heap.get 0
          = some (.texted (.texted (.base "x") xy1 (pyStrip "one") (255, 255, 255)
              "f" 50) xy2 (pyStrip "two") (255, 255, 255) "f" 50) :=
  writetext_draws_in_place_and_returns_same_object envFont
    ⟨[], [("f", [9])], Heap.mk [.base "x"], 0⟩ 0 (.base "x") "f" 50 50
    (348, 444) (549, 176) "one" "two" (255, 255, 255) (255, 255, 255) "JPEG" [9]
    (by decide) (by decide) (by decide)

end ImgGen
